import Mathlib

/-!
Verification of the `react-form-validity` package
(`src/packages/react-form-validity/index.ts`) against its
natural-language specification.

Strings are embedded as `List Char` (abbreviated `Str`) so that all the
JavaScript string manipulations of the source (`slice`, `lastIndexOf`,
concatenation, template literals) become explicit, executable list
functions.  `str` converts a Lean string literal to that representation.
-/

namespace Conform

abbrev Str := List Char

def str (s : String) : Str := s.data

/-! ## Path resolver (spec §4.2, source `getKey` / `getFieldProps`)

`getKey` embeds (index.ts:160-162)

  element.name.slice(element.name.lastIndexOf('.') + 1)

i.e. the substring after the last `'.'`, or the whole name when there is
no `'.'` (`lastIndexOf` returns -1, `slice(0)` is the whole string).

`resolveName` embeds the name computation of `getFieldProps`
(index.ts:328)

  options.name ? `${options.name}.${options.key}` : options.key

(the empty string is falsy in JavaScript, so an empty parent yields the
bare key). -/

def getKey (name : Str) : Str :=
  (name.reverse.takeWhile (fun c => c ≠ '.')).reverse

def resolveName (parent key : Str) : Str :=
  if parent = [] then key else parent ++ '.' :: key

/-- `takeWhile` keeps a list all of whose elements satisfy the predicate. -/
theorem takeWhile_of_forall {p : Char → Bool} :
    ∀ l : Str, (∀ c ∈ l, p c = true) → l.takeWhile p = l := fun _ h =>
  List.takeWhile_eq_self_iff.mpr h

/-- `takeWhile` stops exactly at the first failing element. -/
theorem takeWhile_append_stop {p : Char → Bool} :
    ∀ (xs : Str) (y : Char) (ys : Str), (∀ c ∈ xs, p c = true) → p y = false →
      (xs ++ y :: ys).takeWhile p = xs := by
  intro xs y ys
  induction xs with
  | nil => intro _ hy; simp [List.takeWhile, hy]
  | cons c cs ih =>
      intro hxs hy
      have hc : p c = true := hxs c (List.mem_cons_self c cs)
      have ih2 := ih (fun x hx => hxs x (List.mem_cons_of_mem c hx)) hy
      simpa [List.takeWhile, hc] using ih2

/-- C4 fails as stated: with parent address `a` and field key `b.c`,
`getKey (resolveName parent key)` recovers only `c`, not `b.c`, because
the last-`.` split cannot see through a dot inside the key itself. -/
theorem c4_roundtrip_cex :
    getKey (resolveName (str ("a")) (str ("b.c"))) = str ("c") ∧
      getKey (resolveName (str ("a")) (str ("b.c"))) ≠ str ("b.c") := by
  constructor <;> decide

/-- C4 (amended): for every parent address and every field key that does
not itself contain a `.`, `getKey (resolveName parent key) = key`, where
`resolveName` returns the key when the parent address is empty and
otherwise `parent ++ "." ++ key`, and `getKey` takes the substring after
the last `.` of the control's name. -/
theorem c4_roundtrip (parent key : Str) (hkey : '.' ∉ key) :
    getKey (resolveName parent key) = key := by
  have hall : ∀ c ∈ key.reverse, (fun c => decide (c ≠ '.')) c = true := by
    intro c hc
    rw [List.mem_reverse] at hc
    simp only [decide_eq_true_eq]
    intro h
    exact hkey (h ▸ hc)
  unfold resolveName
  by_cases hp : parent = []
  · rw [if_pos hp]
    unfold getKey
    rw [takeWhile_of_forall key.reverse hall, List.reverse_reverse]
  · rw [if_neg hp]
    unfold getKey
    rw [List.reverse_append, List.reverse_cons]
    rw [List.append_assoc, List.singleton_append]
    rw [takeWhile_append_stop key.reverse '.' parent.reverse hall (by decide)]
    exact List.reverse_reverse key

/-- Concrete instance of the amended C4 round-trip at parent `user` and
key `email`. -/
theorem c4_roundtrip_witness :
    '.' ∉ str ("email") ∧
      getKey (resolveName (str ("user")) (str ("email"))) = str ("email") :=
  ⟨by decide, c4_roundtrip (str ("user")) (str ("email")) (by decide)⟩

/-! ## Touch/Submit gate (spec §4.5, source `useFormValidity`)

The per-form mutable state of `useFormValidity` (index.ts:112-115) is

  { submitted: boolean, touched: Record<string, boolean | undefined> }

embedded here as a flag plus a list of touched control names (the record
maps names to `true`, so only membership matters).  Each handler is a
pure function from the state and the event data to the new state plus
the observable effects of that handler. -/

structure GateState where
  submitted : Bool
  touched : List String
  deriving DecidableEq

/-- `handleBlur` (index.ts:119-124): marks the control touched and
always invokes `registry.checkValidity` on it.  The returned `Bool` is
whether `checkValidity` was invoked on the control. -/
def blur (s : GateState) (name : String) : GateState × Bool :=
  ({ s with touched := name :: s.touched }, true)

/-- `handleChange` (index.ts:125-134): invokes `registry.checkValidity`
on the control only when the form was already submitted or the control
is touched.  The returned `Bool` is whether `checkValidity` was
invoked. -/
def change (s : GateState) (name : String) : GateState × Bool :=
  (s, s.submitted || s.touched.contains name)

/-- Modelled from the spec: the structural directive of §4.6/§6
(`draftUpdate` in the `form-validity` package, which is not under
`src/`): a reserved name/value pair carrying the target list's address
and an insert or remove tag, attached to a non-validating submit
control. -/
inductive Directive where
  | insert : String → Directive
  | remove : String → Nat → Directive
  deriving DecidableEq

/-- Modelled from the spec: `shouldSkipValidate` of the `form-validity`
package (not under `src/`) returns true exactly when the submitter
carries the reserved structural directive (§4.6). -/
def shouldSkipValidate (submitter : Option Directive) : Bool :=
  submitter.isSome

/-- Observable effects of one run of `handleSubmit`. -/
structure SubmitOutcome where
  checkedForm : Bool
  prevented : Bool
  onSubmitRan : Bool
  deriving DecidableEq

/-- `handleSubmit` (index.ts:135-146): sets the submitted flag, and
unless the submitter is validation-exempt, runs the full-form registry
check (`formValid` is the value that check would return; by JavaScript
short-circuiting of `&&` it is not evaluated for an exempt submitter);
on a failed check the default submission is prevented, otherwise the
user `onSubmit` runs. -/
def submit (s : GateState) (submitter : Option Directive) (formValid : Bool) :
    GateState × SubmitOutcome :=
  let skip := shouldSkipValidate submitter
  let blocked := !skip && !formValid
  ({ s with submitted := true },
   { checkedForm := !skip, prevented := blocked, onSubmitRan := !blocked })

/-- The pristine gate state of a freshly mounted form
(index.ts:115: `{ submitted: false, touched: {} }`). -/
def pristine : GateState := ⟨false, []⟩

/-- C1: a blur adds the control's name to the touched set and always
invokes `checkValidity` on that control regardless of prior state; a
change invokes `checkValidity` on the control iff the form was submitted
or the control is already touched; in particular on a pristine form a
change on an untouched field runs no validation while a blur does. -/
theorem c1_touch_submit_gating (s : GateState) (name : String) :
    (name ∈ (blur s name).1.touched ∧ (blur s name).2 = true) ∧
      ((change s name).2 = true ↔ (s.submitted = true ∨ name ∈ s.touched)) ∧
      ((change pristine name).2 = false ∧ (blur pristine name).2 = true) := by
  refine ⟨⟨List.mem_cons_self name s.touched, rfl⟩, ?_, by simp [change, pristine], rfl⟩
  simp [change, List.elem_iff]

/-- C2: every submit sets the submitted flag; the default action is
prevented (and the user `onSubmit` suppressed) exactly when the
submitter is not validation-exempt and the full-form check fails, and
the full-form registry check is evaluated exactly when the submitter is
not exempt. -/
theorem c2_submit_handling (s : GateState) (submitter : Option Directive)
    (formValid : Bool) :
    (submit s submitter formValid).1.submitted = true ∧
      (submit s submitter formValid).2.prevented
        = (!shouldSkipValidate submitter && !formValid) ∧
      (submit s submitter formValid).2.onSubmitRan
        = !(submit s submitter formValid).2.prevented ∧
      (submit s submitter formValid).2.checkedForm
        = !shouldSkipValidate submitter := by
  refine ⟨rfl, rfl, rfl, rfl⟩

/-- C3 fails as stated: running the submit handler on a pristine form
with a structural (validation-exempt) submitter leaves the touched set
empty, yet a subsequent change event on the untouched field `email`
does invoke validation, because the handler sets the submitted flag
unconditionally (index.ts:136). -/
theorem c3_structural_submit_cex :
    ((submit pristine (some (Directive.insert ("list"))) true).1.touched = [] ∧
      (change ((submit pristine (some (Directive.insert ("list"))) true).1)
        ("email")).2 = true) := by
  constructor <;> rfl

/-- C3 (amended): after the submit handler runs with a structural
submitter, an unrelated untouched field's touched-set membership is
unchanged and the full-form check is skipped, but the submitted flag is
set by every run of the handler — structural or not — so a subsequent
change event on an untouched field does trigger validation.  (In the
source the structural buttons avoid this by cancelling the submission in
their click handlers via `preventDefault` (index.ts:271-274, 285-291),
so the submit handler never runs for them.) -/
theorem c3_structural_submit (s : GateState) (d : Directive) (v : Bool)
    (name : String) :
    (submit s (some d) v).1.touched = s.touched ∧
      (submit s (some d) v).2.checkedForm = false ∧
      (submit s (some d) v).1.submitted = true ∧
      (change (submit s (some d) v).1 name).2 = true := by
  refine ⟨rfl, rfl, rfl, ?_⟩
  simp [change, submit]

/-! ## Dynamic list controller (spec §4.6, source `useFieldsetControl`)

`useFieldsetControl` (index.ts:248-316) keeps a list of stable numeric
keys (`useState(() => [...Array(options.length).keys()])`), mutated by
the add button (`keys.concat(Date.now())`), the delete buttons
(`[...keys.slice(0, index), ...keys.slice(index + 1)]`), and a
reconciliation effect that fires when `options.length` changes. -/

/-- Initial key sequence `[...Array(n).keys()] = [0, …, n-1]`
(index.ts:256). -/
def initialKeys (n : Nat) : List Nat := List.range n

/-- The add button's key mutation `keys.concat(Date.now())`
(index.ts:272); `now` stands for the `Date.now()` timestamp. -/
def appendKey (keys : List Nat) (now : Nat) : List Nat := keys ++ [now]

/-- The delete button's key mutation
`[...keys.slice(0, index), ...keys.slice(index + 1)]` (index.ts:286-289). -/
def removeKey (keys : List Nat) (index : Nat) : List Nat :=
  keys.take index ++ keys.drop (index + 1)

/-- The reconciliation effect (index.ts:305-313): when the external
value array's length changes, keep the keys if their number already
matches, otherwise rebuild them as `[...Array(options.length).keys()]`. -/
def reconcile (keys : List Nat) (n : Nat) : List Nat :=
  if keys.length = n then keys else List.range n

/-- The rendered entries of the controller's result, one per key with
its position (index.ts:280-301): `keys.map((key, index) => ...)` yields
for each entry its stable key and the `name` of its options, which is
`options[key] ?? { name: `${name}[${index}]` }` — the external option
looked up by stable key, falling back to a positional name.  The first
argument of `controlEntriesFrom` is the running positional index. -/
def controlEntriesFrom (optionNames : List Str) (listName : Str) :
    Nat → List Nat → List (Nat × Str)
  | _, [] => []
  | i, k :: ks =>
      (k, (optionNames.get? k).getD (listName ++ '[' :: (Nat.repr i).data ++ [']'])) ::
        controlEntriesFrom optionNames listName (i + 1) ks

def controlEntries (optionNames : List Str) (listName : Str)
    (keys : List Nat) : List (Nat × Str) :=
  controlEntriesFrom optionNames listName 0 keys

/-- C5 fails as stated: a key sequence that has drifted from the initial
range (here `[1000]`, reached by `append` with timestamp 1000 from a
1-element list followed by `remove 0`) is rebuilt wholesale as `[0, 1]`
when the external length grows from 1 to 2 — the prior key 1000 does not
retain its identity. -/
theorem c5_reconcile_cex :
    reconcile (removeKey (appendKey (initialKeys 1) 1000) 0) 2 = [0, 1] ∧
      (1000 : Nat) ∉ reconcile (removeKey (appendKey (initialKeys 1) 1000) 0) 2 := by
  constructor <;> decide

/-- C5 (amended): reconciliation compares lengths only — if the key
sequence length already equals the new external length it is returned
unchanged (whatever its elements), and otherwise it is rebuilt as the
range `0, …, M-1` for the new length `M`.  Only when the key sequence is
still the initial range `0, …, N-1` does growth to `N+1` amount to
appending exactly one new key with all prior keys retained; a drifted
sequence is renumbered wholesale. -/
theorem c5_reconcile (N : Nat) (keys : List Nat) :
    reconcile (initialKeys N) (N + 1) = initialKeys N ++ [N] ∧
      (keys.length = N → reconcile keys N = keys) := by
  constructor
  · unfold reconcile initialKeys
    rw [if_neg (by simp), List.range_succ]
  · intro h
    unfold reconcile
    rw [if_pos h]

/-- Concrete instance of the amended C5: a matching length keeps even a
drifted key sequence, and growth from the initial range appends one key. -/
theorem c5_reconcile_witness :
    reconcile (initialKeys 2) 3 = initialKeys 2 ++ [2] ∧
      reconcile [5, 7] 2 = [5, 7] :=
  ⟨(c5_reconcile 2 [5, 7]).1, (c5_reconcile 2 [5, 7]).2 (by decide)⟩

/-- C6 fails as stated: after `append` (timestamp `T`) and `remove 0` on
a list initialized from a 2-element value array, the surviving
former-index-1 element does retain its stable key 1, but its rendered
entry is `options[1]` — looked up by stable key, not by position — so it
is still addressed `list[1]`, not `list[0]` (and the appended element,
now at index 1, also falls back to `list[1]`). -/
theorem c6_append_remove_cex :
    controlEntries [str ("list[0]"), str ("list[1]")] (str ("list"))
        (removeKey (appendKey (initialKeys 2) 1000) 0)
      = [(1, str ("list[1]")), (1000, str ("list[1]"))] := by
  decide

/-- C6 (amended): starting from a list fieldset whose key sequence was
initialized from a value array of length 2, `append` (with any timestamp
`T ≥ 2`, as `Date.now()` always is) makes the key sequence length 3 and
the new element's entry is addressed `list[2]`; `remove 0` then makes
the length 2, and the surviving former-index-1 element retains its
original stable key 1 but — because entries look up the external options
by stable key — is still addressed `list[1]`, not `list[0]`. -/
theorem c6_append_remove (T : Nat) (hT : 2 ≤ T) :
    (appendKey (initialKeys 2) T).length = 3 ∧
      controlEntries [str ("list[0]"), str ("list[1]")] (str ("list"))
          (appendKey (initialKeys 2) T)
        = [(0, str ("list[0]")), (1, str ("list[1]")), (T, str ("list[2]"))] ∧
      (removeKey (appendKey (initialKeys 2) T) 0).length = 2 ∧
      removeKey (appendKey (initialKeys 2) T) 0 = [1, T] ∧
      controlEntries [str ("list[0]"), str ("list[1]")] (str ("list"))
          (removeKey (appendKey (initialKeys 2) T) 0)
        = [(1, str ("list[1]")), (T, str ("list[1]"))] := by
  have hkeys : appendKey (initialKeys 2) T = [0, 1, T] := rfl
  have hrem : removeKey (appendKey (initialKeys 2) T) 0 = [1, T] := rfl
  have hget : ([str ("list[0]"), str ("list[1]")] : List Str)[T]? = none := by
    apply List.getElem?_eq_none
    simpa using hT
  have hf1 : str ("list") ++ '[' :: (Nat.repr 1).data ++ [']'] = str ("list[1]") := by
    decide
  have hf2 : str ("list") ++ '[' :: (Nat.repr 2).data ++ [']'] = str ("list[2]") := by
    decide
  refine ⟨by rw [hkeys]; rfl, ?_, by rw [hrem]; rfl, hrem, ?_⟩
  · rw [hkeys]
    simp [controlEntries, controlEntriesFrom, hget, hf2]
  · rw [hrem]
    simp [controlEntries, controlEntriesFrom, hget, hf1]

/-- Concrete instance of the amended C6 at timestamp 1665449400000. -/
theorem c6_append_remove_witness :
    (appendKey (initialKeys 2) 1665449400000).length = 3 ∧
      removeKey (appendKey (initialKeys 2) 1665449400000) 0 = [1, 1665449400000] :=
  ⟨(c6_append_remove 1665449400000 (by decide)).1,
   (c6_append_remove 1665449400000 (by decide)).2.2.2.1⟩

/-! ### List-name agreement check (source index.ts:256-267)

`useFieldsetControl` derives the shared parent list name by

  options.reduce((result, option) => {
    const name = option.name.slice(0, option.name.lastIndexOf('['));
    if (result && result !== name) { throw new Error(...); }
    return name;
  }, '')

`parentOf` embeds the `slice` (JavaScript `lastIndexOf` returns -1 when
`'['` is absent, and `slice(0, -1)` then drops the final character);
`reduceName` embeds the fold, with `none` standing for the thrown
error.  Note the JavaScript truthiness test `result && ...`: an empty
accumulated name disables the comparison. -/

def parentOf (s : Str) : Str :=
  if '[' ∈ s then ((s.reverse.dropWhile (fun c => c ≠ '[')).drop 1).reverse
  else s.dropLast

def nameStep (result : Str) (optName : Str) : Option Str :=
  let name := parentOf optName
  if result ≠ [] ∧ result ≠ name then none else some name

def reduceName (optNames : List Str) : Option Str :=
  optNames.foldlM nameStep []

/-- C7 fails as stated: the two option names `[0]` and `a[0]` have
different parent prefixes (`""` and `"a"`), yet setup does not throw,
because the JavaScript truthiness test `result && result !== name`
skips the comparison while the accumulated name is the empty string. -/
theorem c7_list_naming_cex :
    parentOf (str ("[0]")) ≠ parentOf (str ("a[0]")) ∧
      reduceName [str ("[0]"), str ("a[0]")] = some (str ("a")) := by
  constructor <;> decide

/-- Accumulator-generalized characterization of the name fold: starting
from a nonempty accumulated name, the fold succeeds exactly when every
remaining option's parent prefix equals it. -/
theorem reduceName_fold (optNames : List Str) :
    ∀ acc : Str, acc ≠ [] → (∀ o ∈ optNames, parentOf o ≠ []) →
      ((optNames.foldlM nameStep acc).isSome
        ↔ ∀ o ∈ optNames, parentOf o = acc) := by
  induction optNames with
  | nil => intro acc _ _; simp
  | cons o os ih =>
      intro acc hacc hne
      rw [List.foldlM_cons]
      by_cases h : acc = parentOf o
      · have hstep : nameStep acc o = some (parentOf o) := by
          unfold nameStep
          rw [if_neg]
          simp [h]
        rw [hstep]
        have hpo : parentOf o ≠ [] := hne o (List.mem_cons_self o os)
        have ihs := ih (parentOf o) hpo
          (fun x hx => hne x (List.mem_cons_of_mem o hx))
        simp only [Option.bind_eq_bind, Option.some_bind] at *
        rw [ihs]
        constructor
        · intro hall x hx
          rcases List.mem_cons.mp hx with rfl | hx'
          · exact h.symm
          · exact (hall x hx').trans h.symm
        · intro hall x hx
          exact (hall x (List.mem_cons_of_mem o hx)).trans h
      · have hstep : nameStep acc o = none := by
          unfold nameStep
          rw [if_pos ⟨hacc, h⟩]
        rw [hstep]
        simp only [Option.bind_eq_bind, Option.none_bind, Option.isSome_none]
        constructor
        · intro hfalse; exact Bool.noConfusion hfalse
        · intro hall
          exact absurd (hall o (List.mem_cons_self o os)).symm h

/-- C7 (amended): when every option's parent prefix (the part of its
name before the last `[`) is nonempty, setup succeeds exactly when all
options agree on that parent prefix — disagreement throws immediately at
setup.  (A disagreement hidden behind an empty parent prefix in an
earlier option escapes detection, as the counterexample shows.) -/
theorem c7_list_naming (o₀ : Str) (os : List Str)
    (hne : ∀ o ∈ o₀ :: os, parentOf o ≠ []) :
    (reduceName (o₀ :: os)).isSome
      ↔ ∀ o ∈ o₀ :: os, parentOf o = parentOf o₀ := by
  unfold reduceName
  rw [List.foldlM_cons]
  have hstep : nameStep [] o₀ = some (parentOf o₀) := by
    unfold nameStep
    rw [if_neg]
    simp
  rw [hstep]
  have h0 : parentOf o₀ ≠ [] := hne o₀ (List.mem_cons_self o₀ os)
  have hrec := reduceName_fold os (parentOf o₀) h0
    (fun x hx => hne x (List.mem_cons_of_mem o₀ hx))
  simp only [Option.bind_eq_bind, Option.some_bind] at *
  rw [hrec]
  constructor
  · intro hall x hx
    rcases List.mem_cons.mp hx with rfl | hx'
    · rfl
    · exact hall x hx'
  · intro hall x hx
    exact hall x (List.mem_cons_of_mem o₀ hx)

/-- Concrete instance of the amended C7: two options naming the same
parent list `a` pass setup. -/
theorem c7_list_naming_witness :
    (reduceName [str ("a[0]"), str ("a[1]")]).isSome = true := by
  have h := (c7_list_naming (str ("a[0]")) [str ("a[1]")] (by decide)).mpr
    (by decide)
  simpa using h

/-! ## Message synthesis and the invalid notification (spec §4.3/§4.4,
source `useFieldset`)

A live control is embedded as its platform-reported native validity
flags, the platform's default message text for the current violation,
and the currently set custom validity message.  The DOM's
`validationMessage` is the custom message when one is set, otherwise the
native text when some flag is on, otherwise the empty string;
`validity.customError` is "custom message nonempty". -/

structure ControlState where
  valueMissing : Bool
  typeMismatch : Bool
  badInput : Bool
  tooShort : Bool
  tooLong : Bool
  rangeUnderflow : Bool
  rangeOverflow : Bool
  stepMismatch : Bool
  patternMismatch : Bool
  nativeMessage : String
  customMessage : String
  deriving DecidableEq

def hasNativeFlag (el : ControlState) : Bool :=
  el.valueMissing || el.typeMismatch || el.badInput || el.tooShort ||
    el.tooLong || el.rangeUnderflow || el.rangeOverflow ||
    el.stepMismatch || el.patternMismatch

def validationMessage (el : ControlState) : String :=
  if el.customMessage ≠ "" then el.customMessage
  else if hasNativeFlag el then el.nativeMessage
  else ""

/-- Modelled from the spec: the constraint configuration consumed by the
message synthesizer (`getFieldConfig` / the `Field` model live in the
`form-validity` package, which is not under `src/`).  Only the
per-constraint custom message texts matter here: each is an optional
configuration-supplied message for one native validity flag (§4.3). -/
structure FieldConfig where
  requiredMsg : Option String := none
  typeMsg : Option String := none
  badInputMsg : Option String := none
  shortMsg : Option String := none
  longMsg : Option String := none
  underMsg : Option String := none
  overMsg : Option String := none
  stepMsg : Option String := none
  patternMsg : Option String := none
  deriving DecidableEq

/-- Modelled from the spec: `checkCustomValidity` of the `form-validity`
package (not under `src/`), per §4.3: iterate the flags in a fixed
priority order (`valueMissing` first, then the type/format flags, then
the range/step/pattern flags); for the first true flag return the
configuration-supplied message, which may be absent (`none`), in which
case the caller falls back to the platform's own message text; `none`
also when no flag is set.  First match wins — no aggregation. -/
def checkCustomValidity (el : ControlState) (cfg : FieldConfig) : Option String :=
  if el.valueMissing then cfg.requiredMsg
  else if el.typeMismatch then cfg.typeMsg
  else if el.badInput then cfg.badInputMsg
  else if el.tooShort then cfg.shortMsg
  else if el.tooLong then cfg.longMsg
  else if el.rangeUnderflow then cfg.underMsg
  else if el.rangeOverflow then cfg.overMsg
  else if el.stepMismatch then cfg.stepMsg
  else if el.patternMismatch then cfg.patternMsg
  else none

/-- The sentinel reset of the invalid-notification handler
(index.ts:182-184): if the control's current validation message is the
literal `"valid"`, its custom validity is cleared before anything else
is computed. -/
def sentinelReset (el : ControlState) : ControlState :=
  if validationMessage el = "valid" then { el with customMessage := "" } else el

/-- The message the handler synthesizes from an already-reset control
(index.ts:186-188): `checkCustomValidity(element.validity, config) ??
element.validationMessage`. -/
def msgFromReset (el : ControlState) (cfg : FieldConfig) : String :=
  (checkCustomValidity el cfg).getD (validationMessage el)

/-- The full message synthesis of one invalid notification: sentinel
reset, then `checkCustomValidity` with fallback to the live
`validationMessage`. -/
def synthMessage (el : ControlState) (cfg : FieldConfig) : String :=
  msgFromReset (sentinelReset el) cfg

/-- Replacing `customMessage` by its current value is the identity. -/
theorem custom_self (el : ControlState) (h : el.customMessage = "") :
    { el with customMessage := "" } = el := by
  cases el
  subst h
  rfl

/-- A control whose custom message is already clear is unchanged by the
sentinel reset. -/
theorem sentinelReset_custom_nil (el : ControlState)
    (h : el.customMessage = "") : sentinelReset el = el := by
  unfold sentinelReset
  split
  · exact custom_self el h
  · rfl

/-- The sentinel reset is idempotent. -/
theorem sentinelReset_idem (el : ControlState) :
    sentinelReset (sentinelReset el) = sentinelReset el := by
  by_cases h : validationMessage el = "valid"
  · have h1 : sentinelReset el = { el with customMessage := "" } := by
      unfold sentinelReset
      rw [if_pos h]
    rw [h1]
    exact sentinelReset_custom_nil _ rfl
  · have h1 : sentinelReset el = el := by
      unfold sentinelReset
      rw [if_neg h]
    rw [h1]
    exact h1

/-- C8: during an invalid-notification evaluation, if the control's
current validation message equals the literal `"valid"`, its custom
validity is reset to the empty string before the new message is
computed, and the synthesized message therefore equals the one computed
from the control with its custom message cleared — the stale custom
message never masks the fresh check. -/
theorem c8_sentinel_reset (el : ControlState) (cfg : FieldConfig)
    (h : validationMessage el = "valid") :
    (sentinelReset el).customMessage = "" ∧
      synthMessage el cfg = synthMessage { el with customMessage := "" } cfg := by
  have h1 : sentinelReset el = { el with customMessage := "" } := by
    unfold sentinelReset
    rw [if_pos h]
  constructor
  · rw [h1]
  · unfold synthMessage
    rw [h1, sentinelReset_custom_nil { el with customMessage := "" } rfl]

/-- Concrete instance of C8: a required-but-empty control whose caller
cleared the message with the sentinel `"valid"` synthesizes the fresh
required-message, exactly as the control with no custom message does. -/
theorem c8_sentinel_reset_witness :
    validationMessage
        ⟨true, false, false, false, false, false, false, false, false,
          ("Please fill out this field."), ("valid")⟩ = ("valid") ∧
      (sentinelReset
          ⟨true, false, false, false, false, false, false, false, false,
            ("Please fill out this field."), ("valid")⟩).customMessage = ("") ∧
      synthMessage
          ⟨true, false, false, false, false, false, false, false, false,
            ("Please fill out this field."), ("valid")⟩ { requiredMsg := none }
        = synthMessage
          ⟨true, false, false, false, false, false, false, false, false,
            ("Please fill out this field."), ("")⟩ { requiredMsg := none } := by
  refine ⟨by decide, ?_, ?_⟩
  · exact (c8_sentinel_reset _ { requiredMsg := none } (by decide)).1
  · exact (c8_sentinel_reset _ { requiredMsg := none } (by decide)).2

/-! ## The per-fieldset error mapping (source index.ts:190-192, 196-200)

The React error state is a JavaScript object keyed by field key; it is
embedded as an association list so that "the state object is returned
unchanged" is a structural equality.  `setKV` embeds the spread
`{ ...error, [key]: message }` (an existing key keeps its position, a
new key is appended); `errUpdate` embeds the functional update

  (error) => error[key] === message ? error : { ...error, [key]: message }
-/

abbrev ErrMap := List (Str × String)

def lookupKV {β : Type} : List (Str × β) → Str → Option β
  | [], _ => none
  | (k', v) :: es, k => if k = k' then some v else lookupKV es k

def setKV : ErrMap → Str → String → ErrMap
  | [], k, v => [(k, v)]
  | (k', v') :: es, k, v =>
      if k = k' then (k', v) :: es else (k', v') :: setKV es k v

def errUpdate (err : ErrMap) (k : Str) (m : String) : ErrMap :=
  if lookupKV err k = some m then err else setKV err k m

theorem lookup_setKV_self (err : ErrMap) (k : Str) (m : String) :
    lookupKV (setKV err k m) k = some m := by
  induction err with
  | nil => simp [setKV, lookupKV]
  | cons e es ih =>
      obtain ⟨k', v'⟩ := e
      by_cases h : k = k'
      · simp [setKV, lookupKV, h]
      · simp only [setKV, if_neg h]
        simp only [lookupKV, if_neg h]
        exact ih

theorem lookup_setKV_other (err : ErrMap) (k k' : Str) (m : String)
    (h : k' ≠ k) : lookupKV (setKV err k m) k' = lookupKV err k' := by
  induction err with
  | nil => simp [setKV, lookupKV, h]
  | cons e es ih =>
      obtain ⟨k₀, v₀⟩ := e
      by_cases h0 : k = k₀
      · subst h0
        simp [setKV, lookupKV, h]
      · simp only [setKV, if_neg h0]
        by_cases h1 : k' = k₀
        · simp [lookupKV, h1]
        · simp only [lookupKV, if_neg h1]
          exact ih

theorem lookup_errUpdate_self (err : ErrMap) (k : Str) (m : String) :
    lookupKV (errUpdate err k m) k = some m := by
  unfold errUpdate
  split
  · assumption
  · exact lookup_setKV_self err k m

theorem lookup_errUpdate_other (err : ErrMap) (k k' : Str) (m : String)
    (h : k' ≠ k) : lookupKV (errUpdate err k m) k' = lookupKV err k' := by
  unfold errUpdate
  split
  · rfl
  · exact lookup_setKV_other err k k' m h

theorem errUpdate_self (err : ErrMap) (k : Str) (m : String)
    (h : lookupKV err k = some m) : errUpdate err k m = err := by
  unfold errUpdate
  rw [if_pos h]

theorem errUpdate_idem (err : ErrMap) (k : Str) (m : String) :
    errUpdate (errUpdate err k m) k m = errUpdate err k m :=
  errUpdate_self _ k m (lookup_errUpdate_self err k m)

/-! ## The invalid-notification handler and the registry walk
(source index.ts:173-193; `createConstraintRegistry` is in the
`form-validity` package, not under `src/`, and is modelled from the
spec where noted) -/

/-- The `onInvalid` handler of `useFieldset` (index.ts:173-193): recover
the field key from the control's name, look up its configuration
(early return when absent), apply the sentinel reset, synthesize the
message, and apply the functional error-state update.  Returns the
control state and error mapping after the handler. -/
def onInvalidStep (fs : List (Str × FieldConfig)) (name : Str)
    (el : ControlState) (err : ErrMap) : ControlState × ErrMap :=
  match lookupKV fs (getKey name) with
  | none => (el, err)
  | some cfg =>
      let e := sentinelReset el
      (e, errUpdate err (getKey name) (msgFromReset e cfg))

/-- A control is invalid when a native flag is set or a custom message
is present. -/
def isInvalid (el : ControlState) : Bool :=
  hasNativeFlag el || el.customMessage ≠ ""

/-- Modelled from the spec: the control state on which the invalid
notification fires during a registry check (§4.4: every evaluated
control's message is updated through the notification; §4.3: a control
with no violation has its message cleared through the caller-set
sentinel `"valid"`, which makes the notification fire and the handler
reset it and surface the fresh, empty message). -/
def elForNotify (el : ControlState) : ControlState :=
  if isInvalid el then el else { el with customMessage := "valid" }

/-- Modelled from the spec: `Registry.checkValidity` on a single control
(§4.4): trigger the control's native validity re-evaluation, which fires
the control's invalid notification — the `onInvalid` handler of
`useFieldset` — and thereby updates the error mapping. -/
def registryCheckControl (fs : List (Str × FieldConfig)) (name : Str)
    (el : ControlState) (err : ErrMap) : ControlState × ErrMap :=
  onInvalidStep fs name (elForNotify el) err

/-- Modelled from the spec: the full-form registry walk (§4.4) evaluates
every descendant control in document order, threading the error mapping
through the per-control notifications. -/
def formCheck (fs : List (Str × FieldConfig)) :
    List (Str × ControlState) → ErrMap → List (Str × ControlState) × ErrMap
  | [], err => ([], err)
  | (n, el) :: cs, err =>
      let r1 := registryCheckControl fs n el err
      let r2 := formCheck fs cs r1.2
      ((n, r1.1) :: r2.1, r2.2)

/-! ### Characterization of one registry check, and its stability -/

/-- The control state after one registry check of one control. -/
def notifyEl (fs : List (Str × FieldConfig)) (name : Str)
    (el : ControlState) : ControlState :=
  match lookupKV fs (getKey name) with
  | none => elForNotify el
  | some _ => sentinelReset (elForNotify el)

/-- The (key, message) entry one registry check writes to the error
mapping, if any. -/
def writeOf (fs : List (Str × FieldConfig)) (name : Str)
    (el : ControlState) : Option (Str × String) :=
  (lookupKV fs (getKey name)).map
    (fun cfg => (getKey name, msgFromReset (sentinelReset (elForNotify el)) cfg))

def errApply (err : ErrMap) : Option (Str × String) → ErrMap
  | none => err
  | some (k, m) => errUpdate err k m

theorem registry_decomp (fs : List (Str × FieldConfig)) (n : Str)
    (el : ControlState) (err : ErrMap) :
    registryCheckControl fs n el err
      = (notifyEl fs n el, errApply err (writeOf fs n el)) := by
  unfold registryCheckControl onInvalidStep notifyEl writeOf errApply
  cases h : lookupKV fs (getKey n) <;> simp [h]

theorem custom_of_not_invalid (el : ControlState) (h : isInvalid el = false) :
    el.customMessage = "" := by
  simp [isInvalid] at h
  exact h.2

theorem elForNotify_idem (el : ControlState) :
    elForNotify (elForNotify el) = elForNotify el := by
  by_cases h : isInvalid el = true
  · have h1 : elForNotify el = el := by
      unfold elForNotify
      rw [if_pos h]
    rw [h1]
    exact h1
  · have hb : isInvalid el = false := by simpa using h
    have h1 : elForNotify el = { el with customMessage := "valid" } := by
      unfold elForNotify
      rw [if_neg (by simp [hb])]
    rw [h1]
    unfold elForNotify
    rw [if_pos (by simp [isInvalid])]

/-- Any fixpoint of the sentinel reset is stable under one more
notify-then-reset round. -/
theorem sentinel_notify_stab (s : ControlState)
    (hset : sentinelReset s = s) :
    sentinelReset (elForNotify s) = s := by
  by_cases h : isInvalid s = true
  · have h1 : elForNotify s = s := by
      unfold elForNotify
      rw [if_pos h]
    rw [h1]
    exact hset
  · have hb : isInvalid s = false := by simpa using h
    have hcs := custom_of_not_invalid s hb
    have h1 : elForNotify s = { s with customMessage := "valid" } := by
      unfold elForNotify
      rw [if_neg (by simp [hb])]
    rw [h1]
    have hvm : validationMessage { s with customMessage := "valid" } = "valid" := by
      simp [validationMessage]
    unfold sentinelReset
    rw [if_pos hvm]
    exact custom_self s hcs

theorem core_stab (el : ControlState) :
    sentinelReset (elForNotify (sentinelReset (elForNotify el)))
      = sentinelReset (elForNotify el) :=
  sentinel_notify_stab (sentinelReset (elForNotify el)) (sentinelReset_idem _)

theorem notifyEl_stab (fs : List (Str × FieldConfig)) (n : Str)
    (el : ControlState) : notifyEl fs n (notifyEl fs n el) = notifyEl fs n el := by
  unfold notifyEl
  cases h : lookupKV fs (getKey n) with
  | none => simp [h, elForNotify_idem]
  | some cfg => simp [h, core_stab]

theorem writeOf_stab (fs : List (Str × FieldConfig)) (n : Str)
    (el : ControlState) : writeOf fs n (notifyEl fs n el) = writeOf fs n el := by
  unfold writeOf notifyEl
  cases h : lookupKV fs (getKey n) with
  | none => simp [h]
  | some cfg => simp [h, core_stab]

/-! ### The full-form walk as element map plus error-write replay -/

def mapEls (fs : List (Str × FieldConfig)) (cs : List (Str × ControlState)) :
    List (Str × ControlState) :=
  cs.map (fun c => (c.1, notifyEl fs c.1 c.2))

def writesOf (fs : List (Str × FieldConfig)) (cs : List (Str × ControlState)) :
    List (Str × String) :=
  cs.filterMap (fun c => writeOf fs c.1 c.2)

def applyAll (err : ErrMap) (ws : List (Str × String)) : ErrMap :=
  ws.foldl (fun e w => errUpdate e w.1 w.2) err

theorem formCheck_fst (fs : List (Str × FieldConfig)) :
    ∀ (cs : List (Str × ControlState)) (err : ErrMap),
      (formCheck fs cs err).1 = mapEls fs cs := by
  intro cs
  induction cs with
  | nil => intro err; rfl
  | cons c cs ih =>
      intro err
      obtain ⟨n, el⟩ := c
      simp only [formCheck]
      rw [ih, registry_decomp]
      simp [mapEls]

theorem formCheck_snd (fs : List (Str × FieldConfig)) :
    ∀ (cs : List (Str × ControlState)) (err : ErrMap),
      (formCheck fs cs err).2 = applyAll err (writesOf fs cs) := by
  intro cs
  induction cs with
  | nil => intro err; rfl
  | cons c cs ih =>
      intro err
      obtain ⟨n, el⟩ := c
      simp only [formCheck]
      rw [ih, registry_decomp]
      cases hw : writeOf fs n el with
      | none => simp [errApply, writesOf, List.filterMap_cons, hw, applyAll]
      | some w =>
          obtain ⟨k, m⟩ := w
          simp [errApply, writesOf, List.filterMap_cons, hw, applyAll]

theorem mapEls_stab (fs : List (Str × FieldConfig))
    (cs : List (Str × ControlState)) : mapEls fs (mapEls fs cs) = mapEls fs cs := by
  induction cs with
  | nil => rfl
  | cons c cs ih =>
      obtain ⟨n, el⟩ := c
      simp only [mapEls, List.map_cons] at *
      rw [notifyEl_stab]
      exact List.cons_inj_right _ |>.mpr ih

theorem writesOf_mapEls (fs : List (Str × FieldConfig))
    (cs : List (Str × ControlState)) :
    writesOf fs (mapEls fs cs) = writesOf fs cs := by
  induction cs with
  | nil => rfl
  | cons c cs ih =>
      obtain ⟨n, el⟩ := c
      simp only [mapEls, List.map_cons, writesOf, List.filterMap_cons] at *
      rw [writeOf_stab]
      cases hw : writeOf fs n el <;> simp [hw, ih]

theorem lookup_applyAll_not_mem (k : Str) :
    ∀ (ws : List (Str × String)) (err : ErrMap), k ∉ ws.map Prod.fst →
      lookupKV (applyAll err ws) k = lookupKV err k := by
  intro ws
  induction ws with
  | nil => intro err _; rfl
  | cons w ws ih =>
      intro err hk
      obtain ⟨k₀, m⟩ := w
      simp only [List.map_cons, List.mem_cons] at hk
      push_neg at hk
      show lookupKV (applyAll (errUpdate err k₀ m) ws) k = lookupKV err k
      rw [ih (errUpdate err k₀ m) hk.2]
      exact lookup_errUpdate_other err k₀ k m hk.1

theorem applyAll_idem :
    ∀ (ws : List (Str × String)), (ws.map Prod.fst).Nodup →
      ∀ err : ErrMap, applyAll (applyAll err ws) ws = applyAll err ws := by
  intro ws
  induction ws with
  | nil => intro _ err; rfl
  | cons w ws ih =>
      intro hnd err
      obtain ⟨k, m⟩ := w
      simp only [List.map_cons, List.nodup_cons] at hnd
      simp only [applyAll, List.foldl_cons]
      have hfix : errUpdate ((applyAll (errUpdate err k m) ws)) k m
          = applyAll (errUpdate err k m) ws := by
        apply errUpdate_self
        rw [lookup_applyAll_not_mem k ws _ hnd.1]
        exact lookup_errUpdate_self err k m
      simp only [applyAll] at hfix
      rw [hfix]
      exact ih hnd.2 (errUpdate err k m)

theorem writes_keys_sublist (fs : List (Str × FieldConfig)) :
    ∀ cs : List (Str × ControlState),
      List.Sublist ((writesOf fs cs).map Prod.fst)
        (cs.map (fun c => getKey c.1)) := by
  intro cs
  induction cs with
  | nil => simp [writesOf]
  | cons c cs ih =>
      obtain ⟨n, el⟩ := c
      simp only [writesOf, List.filterMap_cons, List.map_cons]
      cases hw : writeOf fs n el with
      | none => exact ih.cons (getKey n)
      | some w =>
          have hk : w.1 = getKey n := by
            unfold writeOf at hw
            cases h : lookupKV fs (getKey n) with
            | none => rw [h] at hw; simp at hw
            | some cfg =>
                rw [h] at hw
                simp at hw
                rw [← hw]
          simp only [List.map_cons, hk]
          exact ih.cons₂ (getKey n)

/-- C9: for every form state, running the full-form registry check twice
in succession with no intervening value change is the same as running it
once — every control's state and every field's message in the error
mapping are identical after the second pass — provided the controls of
the fieldset have distinct field keys (as the keys of one fieldset, being
object properties, always are). -/
theorem c9_check_idempotent (fs : List (Str × FieldConfig))
    (cs : List (Str × ControlState)) (err : ErrMap)
    (h : (cs.map (fun c => getKey c.1)).Nodup) :
    formCheck fs (formCheck fs cs err).1 (formCheck fs cs err).2
      = formCheck fs cs err := by
  have hw : ((writesOf fs cs).map Prod.fst).Nodup :=
    (writes_keys_sublist fs cs).nodup h
  apply Prod.ext
  · simp only [formCheck_fst]
    exact mapEls_stab fs cs
  · simp only [formCheck_snd, formCheck_fst]
    rw [writesOf_mapEls]
    exact applyAll_idem (writesOf fs cs) hw err

/-- Concrete instance of C9: one registered control, checked twice from
an empty error mapping. -/
theorem c9_check_idempotent_witness :
    formCheck [(str ("x"), {})]
        (formCheck [(str ("x"), {})]
          [(str ("a.x"),
            ⟨true, false, false, false, false, false, false, false, false,
              ("required"), ("")⟩)] []).1
        (formCheck [(str ("x"), {})]
          [(str ("a.x"),
            ⟨true, false, false, false, false, false, false, false, false,
              ("required"), ("")⟩)] []).2
      = formCheck [(str ("x"), {})]
          [(str ("a.x"),
            ⟨true, false, false, false, false, false, false, false, false,
              ("required"), ("")⟩)] [] :=
  c9_check_idempotent _ _ _ (by decide)

/-- C10: when a control's invalid notification fires, every key other
than the control's own (recovered by `getKey` from its name) keeps its
message in the error mapping; if the field has a registered
configuration and the newly synthesized message equals the stored one,
the mapping is returned unchanged (no state update); and with no
registered configuration the handler leaves the mapping unchanged. -/
theorem c10_error_frame (fs : List (Str × FieldConfig)) (name : Str)
    (el : ControlState) (err : ErrMap) (k : Str) (cfg : FieldConfig) :
    (k ≠ getKey name →
      lookupKV (onInvalidStep fs name el err).2 k = lookupKV err k) ∧
      (lookupKV fs (getKey name) = some cfg →
        lookupKV err (getKey name) = some (synthMessage el cfg) →
        (onInvalidStep fs name el err).2 = err) ∧
      (lookupKV fs (getKey name) = none →
        (onInvalidStep fs name el err).2 = err) := by
  refine ⟨?_, ?_, ?_⟩
  · intro hk
    unfold onInvalidStep
    cases h : lookupKV fs (getKey name) with
    | none => rfl
    | some cfg' =>
        simp only []
        exact lookup_errUpdate_other err (getKey name) k _ hk
  · intro hcfg hstored
    unfold onInvalidStep
    rw [hcfg]
    exact errUpdate_self _ _ _ hstored
  · intro hnone
    unfold onInvalidStep
    rw [hnone]

/-- Concrete instance of C10: the handler run on control `a.x` leaves
key `y` untouched, and returns the mapping object unchanged when the
synthesized message matches the stored one. -/
theorem c10_error_frame_witness :
    lookupKV (onInvalidStep [(str ("x"), {})] (str ("a.x"))
        ⟨false, false, false, false, false, false, false, false, false,
          (""), ("")⟩
        [(str ("x"), ("")), (str ("y"), ("q"))]).2 (str ("y"))
      = some ("q") ∧
      (onInvalidStep [(str ("x"), {})] (str ("a.x"))
          ⟨false, false, false, false, false, false, false, false, false,
            (""), ("")⟩
          [(str ("x"), ("")), (str ("y"), ("q"))]).2
        = [(str ("x"), ("")), (str ("y"), ("q"))] := by
  constructor
  · have h := (c10_error_frame [(str ("x"), {})] (str ("a.x"))
      ⟨false, false, false, false, false, false, false, false, false,
        (""), ("")⟩
      [(str ("x"), ("")), (str ("y"), ("q"))] (str ("y")) {}).1 (by decide)
    rw [h]
    decide
  · exact (c10_error_frame [(str ("x"), {})] (str ("a.x"))
      ⟨false, false, false, false, false, false, false, false, false,
        (""), ("")⟩
      [(str ("x"), ("")), (str ("y"), ("q"))] (str ("y")) {}).2.1
      (by decide) (by decide)

end Conform
